import Mathlib

/-!
Verification of the RGUI pixel-buffer compositor, particle simulator and
pixel-format converters (menu_rgui.c).

Modelling conventions:
* A 16-bit frame buffer `uint16_t *data` of dimensions `fb_width × fb_height`
  is modelled as flat row-major memory `Buffer := Nat → Nat` (flat index ↦
  texel value).  The texel at row `r`, column `c` sits at flat index
  `r * fb_width + c`.
* C `unsigned` arithmetic is `Nat` with an explicit `% 2^32` wherever the
  source expression can wrap (`x + width` in the rectangle fills); `int` is
  `Int` (claims that exercise the `int` paths restrict inputs to the
  representable range, mirroring the C type).
* C shift/mask pixel extraction `(col >> k) & 0xff` is written
  `col / 2^k % 256`, and packing of disjoint bit fields `(a << 12) | ...`
  is written `a * 4096 + ...`; both are arithmetically identical to the
  source expressions.
* `float`/`double` expressions are modelled by exact rational arithmetic
  over `Rat`; float literals that are claims-relevant only in exact
  positions keep their decimal value (0.85f is modelled by its exact
  binary32 value 14260634 / 2^24 where the truncated result matters).
  The claims proved against these definitions only exercise computations
  whose binary32 evaluation is exact (scale factor 1.0, untaken branches)
  or whose conclusions are insensitive to rounding (clamping to constant
  ranges, the sign/magnitude behaviour of `fmod`, and a drop-count
  truncation whose distance to the nearest integer exceeds the rounding
  error).
* `rand()` is modelled by an arbitrary oracle `Nat → Nat` supplying the
  successive return values; `rand() % k` becomes `oracle n % k`.
-/

namespace RGUI

unseal Rat.add Rat.mul Rat.sub Rat.inv Rat.ofScientific

/-- Flat row-major frame-buffer memory: flat index ↦ 16-bit texel value. -/
def Buffer : Type := Nat → Nat

/-- `2^32`, the modulus of C `unsigned int` arithmetic. -/
def U32 : Nat := 2 ^ 32

theorem U32_eq : U32 = 4294967296 := by norm_num [U32]

/-- `RGUI_NUM_PARTICLES` -/
def RGUI_NUM_PARTICLES : Nat := 256

/-- `RGUI_MAX_FB_WIDTH` -/
def RGUI_MAX_FB_WIDTH : Nat := 426

/-- One `memcpy` of `n` texels into flat positions `[dstOff, dstOff + n)`,
reading texel `k` from `src (srcOff + k)`. -/
def memcpyRow (b : Buffer) (dstOff : Nat) (src : Nat → Nat) (srcOff n : Nat) : Buffer :=
  fun idx => if dstOff ≤ idx ∧ idx < dstOff + n then src (srcOff + (idx - dstOff)) else b idx

/-- The index sequence of a C loop `for (i = start; i < stop; i += step)`. -/
def loopIdxs (start stop step : Nat) : List Nat :=
  (List.range ((stop - start + step - 1) / step)).map (fun k => start + k * step)

/-- A sequence of row `memcpy`s: for each `r` in `rows`, copy `n` texels from
`src` (starting at `srcOff = xs`) to flat offset `xs + r * w`.  This is the
shape shared by every write loop of `rgui_fill_rect`, `rgui_color_rect` and
`rgui_draw_particle` (for the latter two, `src` is a constant function). -/
def fillRows (b : Buffer) (rows : List Nat) (xs : Nat) (src : Nat → Nat) (n w : Nat) : Buffer :=
  rows.foldl (fun acc r => memcpyRow acc (xs + r * w) src xs n) b

/-- `scanline_even` after the population loop of the solid branch of
`rgui_fill_rect`: `scanline_even[x_index] = dark_color` for
`x_index ∈ [x_start, x_end)`; other entries keep their indeterminate stack
contents `init`. -/
def scanSolid (init : Nat → Nat) (xs xe c : Nat) : Nat → Nat :=
  fun i => if xs ≤ i ∧ i < xe then c else init i

/-- `scanline_even` after the population loop of the thick dither branch:
`x_is_even` is `((x_index >> 1) & 1) == 0`, i.e. `x_index / 2 % 2 = 0`. -/
def scanEvenThick (init : Nat → Nat) (xs xe d l : Nat) : Nat → Nat :=
  fun i => if xs ≤ i ∧ i < xe then (if i / 2 % 2 = 0 then d else l) else init i

/-- `scanline_odd` after the population loop of the thick dither branch. -/
def scanOddThick (init : Nat → Nat) (xs xe d l : Nat) : Nat → Nat :=
  fun i => if xs ≤ i ∧ i < xe then (if i / 2 % 2 = 0 then l else d) else init i

/-- `scanline_even` after the population loop of the normal dither branch:
`x_is_even` is `(x_index & 1) == 0`, i.e. `x_index % 2 = 0`. -/
def scanEvenNorm (init : Nat → Nat) (xs xe d l : Nat) : Nat → Nat :=
  fun i => if xs ≤ i ∧ i < xe then (if i % 2 = 0 then d else l) else init i

/-- `scanline_odd` after the population loop of the normal dither branch. -/
def scanOddNorm (init : Nat → Nat) (xs xe d l : Nat) : Nat → Nat :=
  fun i => if xs ≤ i ∧ i < xe then (if i % 2 = 0 then l else d) else init i

/-- The two interleaved row loops of the normal (1×2-period) dither branch of
`rgui_fill_rect`: rows `y_start, y_start+2, …` receive `src_a`, rows
`y_start+1, y_start+3, …` receive `src_b`, where `(src_a, src_b)` is
`(scanline_even, scanline_odd)` when `y_start` is even and the swap
otherwise.  The loop counters are C `unsigned`, so the second loop's initial
value is `(y_start + 1) % 2^32` — at `y_start = 2^32-1` it wraps to 0 and
rows below `y_start` are written.  The `y_index += 2` increment can wrap
only when `y_end` (hence `fb_height`) is ≥ `2^32 - 1`; in that regime the C
loop revisits rows without terminating, which a total model cannot express,
so theorems about the zero-size no-op carry an `fb_height ≤ 2^32 - 4`
hypothesis. -/
def fillNormal (data : Buffer) (se so : Nat → Nat) (xs ys ye n w : Nat) : Buffer :=
  let sa := if ys % 2 = 0 then se else so
  let sb := if ys % 2 = 0 then so else se
  fillRows (fillRows data (loopIdxs ys ye 2) xs sa n w)
    (loopIdxs ((ys + 1) % U32) ye 2) xs sb n w

/-- The four interleaved row loops of the thick (2×4-period) dither branch of
`rgui_fill_rect`; the `switch (y_start & 0x3)` of the source selects which
scanline each of the four loops copies.  As in `fillNormal`, the unsigned
initial values `(y_start + k) % 2^32` (k = 1, 2, 3) are modelled exactly;
the mid-loop wrap of `y_index += 4`, possible only when
`fb_height ≥ 2^32 - 3` (where the C loop does not terminate), is not. -/
def fillThick (data : Buffer) (se so : Nat → Nat) (xs ys ye n w : Nat) : Buffer :=
  let sa := match ys % 4 with | 0 => se | 1 => se | 2 => so | _ => so
  let sb := match ys % 4 with | 0 => se | 1 => so | 2 => so | _ => se
  let sc := match ys % 4 with | 0 => so | 1 => so | 2 => se | _ => se
  let sd := match ys % 4 with | 0 => so | 1 => se | 2 => se | _ => so
  fillRows (fillRows (fillRows (fillRows data
    (loopIdxs ys ye 4) xs sa n w)
    (loopIdxs ((ys + 1) % U32) ye 4) xs sb n w)
    (loopIdxs ((ys + 2) % U32) ye 4) xs sc n w)
    (loopIdxs ((ys + 3) % U32) ye 4) xs sd n w

/-- `rgui_fill_rect`.  `seInit`/`soInit` model the indeterminate initial stack
contents of the local `scanline_even`/`scanline_odd` arrays ("Initial values
don't matter here"), which become visible only if the unsigned subtraction
`x_end - x_start` wraps.  Clamping `x <= fb_width ? x : fb_width` is written
`min x fb_width`; the unsigned additions `x + width`, `y + height`, the
unsigned subtraction `x_end - x_start`, and (inside `fillNormal`/`fillThick`)
the unsigned loop starts `y_start + k` carry their `% 2^32` wraparound.
The row offset `y_index * fb_width` is taken over `Nat`; its 32-bit product
wrap (possible only when `fb_width * fb_height > 2^32`) relocates a write to
`(y_index * fb_width) mod 2^32 + column`, which is still inside the
`fb_width * fb_height`-texel buffer, so in-bounds guarantees are
unaffected. -/
def rgui_fill_rect (seInit soInit : Nat → Nat) (data : Buffer)
    (fb_width fb_height x y width height dark_color light_color : Nat)
    (thickness : Bool) : Buffer :=
  let x_start := min x fb_width
  let y_start := min y fb_height
  let x_end := min ((x + width) % U32) fb_width
  let y_end := min ((y + height) % U32) fb_height
  let n := (x_end + U32 - x_start) % U32
  if n = 0 then data
  else if dark_color = light_color then
    fillRows data (loopIdxs y_start y_end 1) x_start
      (scanSolid seInit x_start x_end dark_color) n fb_width
  else if thickness then
    fillThick data (scanEvenThick seInit x_start x_end dark_color light_color)
      (scanOddThick soInit x_start x_end dark_color light_color)
      x_start y_start y_end n fb_width
  else
    fillNormal data (scanEvenNorm seInit x_start x_end dark_color light_color)
      (scanOddNorm soInit x_start x_end dark_color light_color)
      x_start y_start y_end n fb_width

/-- `rgui_color_rect`: clamped double loop writing `color`; the inner loop
`for (x_index = x_start; x_index < x_end; x_index++)` runs
`x_end - x_start` times (no iteration when `x_end ≤ x_start`), which is the
truncated `Nat` subtraction. -/
def rgui_color_rect (data : Buffer)
    (fb_width fb_height x y width height color : Nat) : Buffer :=
  let x_start := min x fb_width
  let y_start := min y fb_height
  let x_end := min ((x + width) % U32) fb_width
  let y_end := min ((y + height) % U32) fb_height
  fillRows data (loopIdxs y_start y_end 1) x_start (fun _ => color)
    (x_end - x_start) fb_width

/-- The clamped bounds computed at the top of `rgui_draw_particle`. -/
structure Clip where
  xs : Int
  ys : Int
  xe : Int
  ye : Int

/-- The clamp chain of `rgui_draw_particle` on its signed coordinates. -/
def particle_clip (fb_width fb_height : Nat) (x y : Int)
    (width height : Nat) : Clip :=
  let x_start0 : Int := if x > 0 then x else 0
  let y_start0 : Int := if y > 0 then y else 0
  let x_end0 : Int := x + width
  let y_end0 : Int := y + height
  let x_start : Int := if x_start0 ≤ (fb_width : Int) then x_start0 else fb_width
  let y_start : Int := if y_start0 ≤ (fb_height : Int) then y_start0 else fb_height
  let x_end1 : Int := if x_end0 > 0 then x_end0 else 0
  let x_end : Int := if x_end1 ≤ (fb_width : Int) then x_end1 else fb_width
  let y_end1 : Int := if y_end0 > 0 then y_end0 else 0
  let y_end : Int := if y_end1 ≤ (fb_height : Int) then y_end1 else fb_height
  ⟨x_start, y_start, x_end, y_end⟩

/-- The return value `(x_end > x_start) && (y_end > y_start)` of
`rgui_draw_particle`. -/
def particle_on_screen (fb_width fb_height : Nat) (x y : Int)
    (width height : Nat) : Bool :=
  let cl := particle_clip fb_width fb_height x y width height
  decide (cl.xs < cl.xe) && decide (cl.ys < cl.ye)

/-- `rgui_draw_particle`: clamped solid fill plus the on-screen flag. -/
def rgui_draw_particle (data : Buffer) (fb_width fb_height : Nat) (x y : Int)
    (width height color : Nat) : Buffer × Bool :=
  let cl := particle_clip fb_width fb_height x y width height
  (fillRows data (loopIdxs cl.ys.toNat cl.ye.toNat 1) cl.xs.toNat
      (fun _ => color) (cl.xe.toNat - cl.xs.toNat) fb_width,
   particle_on_screen fb_width fb_height x y width height)

/-! ### Loop-index and row-fill lemmas -/

theorem mem_loopIdxs {start stop step r : Nat} (hs : 0 < step) :
    r ∈ loopIdxs start stop step ↔
      start ≤ r ∧ r < stop ∧ (r - start) % step = 0 := by
  unfold loopIdxs
  simp only [List.mem_map, List.mem_range]
  constructor
  · rintro ⟨k, hk, rfl⟩
    refine ⟨Nat.le_add_right _ _, ?_, ?_⟩
    · have h1 : (k + 1) * step ≤ ((stop - start + step - 1) / step) * step :=
        Nat.mul_le_mul_right _ hk
      have h2 : ((stop - start + step - 1) / step) * step ≤ stop - start + step - 1 :=
        Nat.div_mul_le_self _ _
      have h3 : (k + 1) * step = k * step + step := by ring
      omega
    · have h4 : start + k * step - start = k * step := by omega
      rw [h4, Nat.mul_mod_left]
  · rintro ⟨h1, h2, h3⟩
    have hd : step ∣ (r - start) := Nat.dvd_of_mod_eq_zero h3
    have he : (r - start) / step * step = r - start := Nat.div_mul_cancel hd
    refine ⟨(r - start) / step, ?_, by omega⟩
    have h5 : ((r - start) / step + 1) * step ≤ stop - start + step - 1 := by
      have h4 : ((r - start) / step + 1) * step = (r - start) / step * step + step := by
        ring
      omega
    have h6 := (Nat.le_div_iff_mul_le hs).mpr h5
    omega

theorem loopIdxs_bounds {start stop step r : Nat} (hs : 0 < step)
    (h : r ∈ loopIdxs start stop step) : start ≤ r ∧ r < stop :=
  ⟨((mem_loopIdxs hs).mp h).1, ((mem_loopIdxs hs).mp h).2.1⟩

theorem memcpyRow_apply (b : Buffer) (dstOff : Nat) (src : Nat → Nat)
    (srcOff n idx : Nat) :
    memcpyRow b dstOff src srcOff n idx =
      if dstOff ≤ idx ∧ idx < dstOff + n then src (srcOff + (idx - dstOff))
      else b idx := rfl

theorem fillRows_apply_notin (rows : List Nat) (b : Buffer) (xs : Nat)
    (src : Nat → Nat) (n w idx : Nat)
    (h : ∀ r ∈ rows, ¬(xs + r * w ≤ idx ∧ idx < xs + r * w + n)) :
    fillRows b rows xs src n w idx = b idx := by
  induction rows generalizing b with
  | nil => rfl
  | cons a tl ih =>
    show fillRows (memcpyRow b (xs + a * w) src xs n) tl xs src n w idx = b idx
    rw [ih _ (fun r hr => h r (List.mem_cons_of_mem a hr)), memcpyRow_apply,
      if_neg (h a (List.mem_cons_self a tl))]

theorem fillRows_apply_in (rows : List Nat) (b : Buffer) (xs : Nat)
    (src : Nat → Nat) (n w idx r : Nat)
    (hn : n ≤ w) (hr : r ∈ rows)
    (h1 : xs + r * w ≤ idx) (h2 : idx < xs + r * w + n) :
    fillRows b rows xs src n w idx = src (xs + (idx - (xs + r * w))) := by
  induction rows generalizing b with
  | nil => cases hr
  | cons a tl ih =>
    show fillRows (memcpyRow b (xs + a * w) src xs n) tl xs src n w idx = _
    by_cases htl : r ∈ tl
    · exact ih _ htl
    · have ha : r = a := by
        rcases List.mem_cons.mp hr with h | h
        · exact h
        · exact absurd h htl
      subst ha
      rw [fillRows_apply_notin, memcpyRow_apply, if_pos ⟨h1, h2⟩]
      intro r' hr' hmem
      -- idx lies in the regions of both rows r and r'; since the regions of
      -- distinct rows are disjoint (n ≤ w), r' = r, contradicting r ∉ tl.
      have hne : r' ≠ r := fun he => htl (he ▸ hr')
      rcases Nat.lt_or_ge r r' with hlt | hge
      · have : (r + 1) * w ≤ r' * w := Nat.mul_le_mul_right _ hlt
        have h3 : (r + 1) * w = r * w + w := by ring
        omega
      · have hlt' : r' < r := lt_of_le_of_ne hge hne
        have : (r' + 1) * w ≤ r * w := Nat.mul_le_mul_right _ hlt'
        have h3 : (r' + 1) * w = r' * w + w := by ring
        omega

/-- If `idx` is not of the form `r * w + c` with `r` in `[ys, ye)` and
`c` in `[xs, xs + n)`, a row-fill over rows drawn from `[ys, ye)` leaves
`idx` unchanged. -/
theorem fillRows_apply_out (rows : List Nat) (b : Buffer) (xs : Nat)
    (src : Nat → Nat) (n w idx ys ye : Nat)
    (hrows : ∀ r ∈ rows, ys ≤ r ∧ r < ye)
    (h : ∀ r c, ys ≤ r → r < ye → xs ≤ c → c < xs + n → idx ≠ r * w + c) :
    fillRows b rows xs src n w idx = b idx := by
  apply fillRows_apply_notin
  intro r hr hmem
  exact h r (idx - r * w) (hrows r hr).1 (hrows r hr).2 (by omega) (by omega)
    (by omega)

/-- The row regions `[xs + r*w, xs + r*w + n)` of distinct rows are disjoint
when `n ≤ w`, so a flat index determines its row. -/
theorem row_region_unique {xs n w idx r r' : Nat} (hn : n ≤ w)
    (h1 : xs + r * w ≤ idx) (h2 : idx < xs + r * w + n)
    (g1 : xs + r' * w ≤ idx) (g2 : idx < xs + r' * w + n) : r = r' := by
  rcases Nat.lt_trichotomy r r' with hlt | he | hgt
  · have hm : (r + 1) * w ≤ r' * w := Nat.mul_le_mul_right _ hlt
    have h3 : (r + 1) * w = r * w + w := by ring
    omega
  · exact he
  · have hm : (r' + 1) * w ≤ r * w := Nat.mul_le_mul_right _ hgt
    have h3 : (r' + 1) * w = r' * w + w := by ring
    omega

/-- Interleaving of two complementary parity patterns is a checkerboard. -/
theorem checker_if (u v d l : Nat) :
    (if u % 2 = 0 then (if v % 2 = 0 then d else l)
     else (if v % 2 = 0 then l else d)) =
      if (u + v) % 2 = 0 then d else l := by
  by_cases h1 : u % 2 = 0 <;> by_cases h2 : v % 2 = 0
  · rw [if_pos h1, if_pos h2, if_pos (by omega)]
  · rw [if_pos h1, if_neg h2, if_neg (by omega)]
  · rw [if_neg h1, if_pos h2, if_neg (by omega)]
  · rw [if_neg h1, if_neg h2, if_pos (by omega)]

/-- Without any restriction on the (possibly wrapped) loop starts, every row
a dither branch writes is still below the clamped `y_end`. -/
theorem fillNormal_out (data : Buffer) (se so : Nat → Nat) (xs ys ye n w idx : Nat)
    (h : ∀ r c, r < ye → xs ≤ c → c < xs + n → idx ≠ r * w + c) :
    fillNormal data se so xs ys ye n w idx = data idx := by
  simp only [fillNormal]
  rw [fillRows_apply_out _ _ _ _ _ _ _ 0 ye
      (fun r hr => ⟨Nat.zero_le r, (loopIdxs_bounds (by norm_num) hr).2⟩)
      (fun r c _ a2 a3 a4 => h r c a2 a3 a4),
    fillRows_apply_out _ _ _ _ _ _ _ 0 ye
      (fun r hr => ⟨Nat.zero_le r, (loopIdxs_bounds (by norm_num) hr).2⟩)
      (fun r c _ a2 a3 a4 => h r c a2 a3 a4)]

theorem fillThick_out (data : Buffer) (se so : Nat → Nat) (xs ys ye n w idx : Nat)
    (h : ∀ r c, r < ye → xs ≤ c → c < xs + n → idx ≠ r * w + c) :
    fillThick data se so xs ys ye n w idx = data idx := by
  simp only [fillThick]
  rw [fillRows_apply_out _ _ _ _ _ _ _ 0 ye
      (fun r hr => ⟨Nat.zero_le r, (loopIdxs_bounds (by norm_num) hr).2⟩)
      (fun r c _ a2 a3 a4 => h r c a2 a3 a4),
    fillRows_apply_out _ _ _ _ _ _ _ 0 ye
      (fun r hr => ⟨Nat.zero_le r, (loopIdxs_bounds (by norm_num) hr).2⟩)
      (fun r c _ a2 a3 a4 => h r c a2 a3 a4),
    fillRows_apply_out _ _ _ _ _ _ _ 0 ye
      (fun r hr => ⟨Nat.zero_le r, (loopIdxs_bounds (by norm_num) hr).2⟩)
      (fun r c _ a2 a3 a4 => h r c a2 a3 a4),
    fillRows_apply_out _ _ _ _ _ _ _ 0 ye
      (fun r hr => ⟨Nat.zero_le r, (loopIdxs_bounds (by norm_num) hr).2⟩)
      (fun r c _ a2 a3 a4 => h r c a2 a3 a4)]

/-- When the unsigned starts `y_start + k` cannot wrap, all rows the dither
branches write lie in `[y_start, y_end)`. -/
theorem fillNormal_out_strong (data : Buffer) (se so : Nat → Nat)
    (xs ys ye n w idx : Nat) (hys : ys + 1 < U32)
    (h : ∀ r c, ys ≤ r → r < ye → xs ≤ c → c < xs + n → idx ≠ r * w + c) :
    fillNormal data se so xs ys ye n w idx = data idx := by
  have e1 : (ys + 1) % U32 = ys + 1 := Nat.mod_eq_of_lt hys
  simp only [fillNormal, e1]
  rw [fillRows_apply_out _ _ _ _ _ _ _ ys ye
      (fun r hr => ⟨by have := (loopIdxs_bounds (by norm_num) hr).1; omega,
        (loopIdxs_bounds (by norm_num) hr).2⟩) h,
    fillRows_apply_out _ _ _ _ _ _ _ ys ye
      (fun r hr => loopIdxs_bounds (by norm_num) hr) h]

theorem fillThick_out_strong (data : Buffer) (se so : Nat → Nat)
    (xs ys ye n w idx : Nat) (hys : ys + 3 < U32)
    (h : ∀ r c, ys ≤ r → r < ye → xs ≤ c → c < xs + n → idx ≠ r * w + c) :
    fillThick data se so xs ys ye n w idx = data idx := by
  have e1 : (ys + 1) % U32 = ys + 1 := Nat.mod_eq_of_lt (by omega)
  have e2 : (ys + 2) % U32 = ys + 2 := Nat.mod_eq_of_lt (by omega)
  have e3 : (ys + 3) % U32 = ys + 3 := Nat.mod_eq_of_lt hys
  simp only [fillThick, e1, e2, e3]
  rw [fillRows_apply_out _ _ _ _ _ _ _ ys ye
      (fun r hr => ⟨by have := (loopIdxs_bounds (by norm_num) hr).1; omega,
        (loopIdxs_bounds (by norm_num) hr).2⟩) h,
    fillRows_apply_out _ _ _ _ _ _ _ ys ye
      (fun r hr => ⟨by have := (loopIdxs_bounds (by norm_num) hr).1; omega,
        (loopIdxs_bounds (by norm_num) hr).2⟩) h,
    fillRows_apply_out _ _ _ _ _ _ _ ys ye
      (fun r hr => ⟨by have := (loopIdxs_bounds (by norm_num) hr).1; omega,
        (loopIdxs_bounds (by norm_num) hr).2⟩) h,
    fillRows_apply_out _ _ _ _ _ _ _ ys ye
      (fun r hr => loopIdxs_bounds (by norm_num) hr) h]

/-- The normal-mode dither branch writes, at row `r` and column `cx` of the
filled region, the even scanline exactly on even rows. -/
theorem fillNormal_point (data : Buffer) (se so : Nat → Nat) (xs ys ye n w r cx : Nat)
    (hn : n ≤ w) (hr1 : ys ≤ r) (hr2 : r < ye) (hc1 : xs ≤ cx) (hc2 : cx < xs + n) :
    fillNormal data se so xs ys ye n w (r * w + cx) =
      (if r % 2 = 0 then se else so) cx := by
  have h1 : xs + r * w ≤ r * w + cx := by omega
  have h2 : r * w + cx < xs + r * w + n := by omega
  have harg : xs + (r * w + cx - (xs + r * w)) = cx := by omega
  simp only [fillNormal, U32_eq]
  by_cases hp : (r - ys) % 2 = 0
  · have hmem : r ∈ loopIdxs ys ye 2 := (mem_loopIdxs (by norm_num)).mpr ⟨hr1, hr2, hp⟩
    have hno : ∀ r'' ∈ loopIdxs ((ys + 1) % 4294967296) ye 2,
        ¬(xs + r'' * w ≤ r * w + cx ∧ r * w + cx < xs + r'' * w + n) := by
      intro r'' hr'' hreg
      have hb := (mem_loopIdxs (by norm_num)).mp hr''
      have heq : r = r'' := row_region_unique hn h1 h2 hreg.1 hreg.2
      omega
    rw [fillRows_apply_notin _ _ _ _ _ _ _ hno,
      fillRows_apply_in _ _ _ _ _ _ _ r hn hmem h1 h2, harg]
    have hr2' : r % 2 = ys % 2 := by omega
    by_cases hy : ys % 2 = 0
    · rw [if_pos hy, if_pos (by omega)]
    · rw [if_neg hy, if_neg (by omega)]
  · have hmem : r ∈ loopIdxs ((ys + 1) % 4294967296) ye 2 :=
      (mem_loopIdxs (by norm_num)).mpr ⟨by omega, hr2, by omega⟩
    rw [fillRows_apply_in _ _ _ _ _ _ _ r hn hmem h1 h2, harg]
    have hr2' : r % 2 ≠ ys % 2 := by omega
    by_cases hy : ys % 2 = 0
    · rw [if_pos hy, if_neg (by omega)]
    · rw [if_neg hy, if_pos (by omega)]

/-- The thick-mode dither branch writes, at row `r` and column `cx` of the
filled region, the even scanline exactly on rows whose pair index `r / 2` is
even (rows `r % 4 ∈ {0, 1}`). -/
theorem fillThick_point (data : Buffer) (se so : Nat → Nat) (xs ys ye n w r cx : Nat)
    (hn : n ≤ w) (hr1 : ys ≤ r) (hr2 : r < ye) (hc1 : xs ≤ cx) (hc2 : cx < xs + n) :
    fillThick data se so xs ys ye n w (r * w + cx) =
      (if r / 2 % 2 = 0 then se else so) cx := by
  have h1 : xs + r * w ≤ r * w + cx := by omega
  have h2 : r * w + cx < xs + r * w + n := by omega
  have harg : xs + (r * w + cx - (xs + r * w)) = cx := by omega
  have hno : ∀ j : Nat, j < 4 → (r - ys) % 4 ≠ j →
      ∀ r'' ∈ loopIdxs ((ys + j) % 4294967296) ye 4,
        ¬(xs + r'' * w ≤ r * w + cx ∧ r * w + cx < xs + r'' * w + n) := by
    intro j hj4 hj r'' hr'' hreg
    have hb := (mem_loopIdxs (by norm_num)).mp hr''
    have heq : r = r'' := row_region_unique hn h1 h2 hreg.1 hreg.2
    omega
  have hys : ys % 4 = 0 ∨ ys % 4 = 1 ∨ ys % 4 = 2 ∨ ys % 4 = 3 := by omega
  simp only [fillThick, U32_eq]
  have hoff : (r - ys) % 4 = 0 ∨ (r - ys) % 4 = 1 ∨ (r - ys) % 4 = 2 ∨
      (r - ys) % 4 = 3 := by omega
  rcases hoff with hk | hk | hk | hk
  · have hmem : r ∈ loopIdxs ys ye 4 := (mem_loopIdxs (by norm_num)).mpr ⟨hr1, hr2, hk⟩
    rw [fillRows_apply_notin _ _ _ _ _ _ _ (hno 3 (by norm_num) (by omega)),
      fillRows_apply_notin _ _ _ _ _ _ _ (hno 2 (by norm_num) (by omega)),
      fillRows_apply_notin _ _ _ _ _ _ _ (hno 1 (by norm_num) (by omega)),
      fillRows_apply_in _ _ _ _ _ _ _ r hn hmem h1 h2, harg]
    rcases hys with hy | hy | hy | hy <;> rw [hy] <;>
      [rw [if_pos (by omega)]; rw [if_pos (by omega)]; rw [if_neg (by omega)];
       rw [if_neg (by omega)]]
  · have hmem : r ∈ loopIdxs ((ys + 1) % 4294967296) ye 4 :=
      (mem_loopIdxs (by norm_num)).mpr ⟨by omega, hr2, by omega⟩
    rw [fillRows_apply_notin _ _ _ _ _ _ _ (hno 3 (by norm_num) (by omega)),
      fillRows_apply_notin _ _ _ _ _ _ _ (hno 2 (by norm_num) (by omega)),
      fillRows_apply_in _ _ _ _ _ _ _ r hn hmem h1 h2, harg]
    rcases hys with hy | hy | hy | hy <;> rw [hy] <;>
      [rw [if_pos (by omega)]; rw [if_neg (by omega)]; rw [if_neg (by omega)];
       rw [if_pos (by omega)]]
  · have hmem : r ∈ loopIdxs ((ys + 2) % 4294967296) ye 4 :=
      (mem_loopIdxs (by norm_num)).mpr ⟨by omega, hr2, by omega⟩
    rw [fillRows_apply_notin _ _ _ _ _ _ _ (hno 3 (by norm_num) (by omega)),
      fillRows_apply_in _ _ _ _ _ _ _ r hn hmem h1 h2, harg]
    rcases hys with hy | hy | hy | hy <;> rw [hy] <;>
      [rw [if_neg (by omega)]; rw [if_neg (by omega)]; rw [if_pos (by omega)];
       rw [if_pos (by omega)]]
  · have hmem : r ∈ loopIdxs ((ys + 3) % 4294967296) ye 4 :=
      (mem_loopIdxs (by norm_num)).mpr ⟨by omega, hr2, by omega⟩
    rw [fillRows_apply_in _ _ _ _ _ _ _ r hn hmem h1 h2, harg]
    rcases hys with hy | hy | hy | hy <;> rw [hy] <;>
      [rw [if_neg (by omega)]; rw [if_pos (by omega)]; rw [if_pos (by omega)];
       rw [if_neg (by omega)]]

/-- Pointwise value of `rgui_fill_rect` inside the clamped rectangle, for
inputs whose unsigned additions do not wrap. -/
theorem rgui_fill_rect_point (seInit soInit : Nat → Nat) (data : Buffer)
    (w h x y wd ht d l : Nat) (thick : Bool)
    (hxw : x + wd < U32) (hyh : y + ht < U32) (r cx : Nat)
    (hr1 : min y h ≤ r) (hr2 : r < min (y + ht) h)
    (hc1 : min x w ≤ cx) (hc2 : cx < min (x + wd) w) :
    rgui_fill_rect seInit soInit data w h x y wd ht d l thick (r * w + cx) =
      (if d = l then d
       else if thick then (if (r / 2 + cx / 2) % 2 = 0 then d else l)
       else (if (r + cx) % 2 = 0 then d else l)) := by
  rw [U32_eq] at hxw hyh
  have hmodx : (x + wd) % 4294967296 = x + wd := by omega
  have hmody : (y + ht) % 4294967296 = y + ht := by omega
  have hn : (min (x + wd) w + 4294967296 - min x w) % 4294967296 =
      min (x + wd) w - min x w := by omega
  have hnle : min (x + wd) w - min x w ≤ w := by omega
  have hne : ¬(min (x + wd) w - min x w = 0) := by omega
  simp only [rgui_fill_rect, U32_eq, hmodx, hmody, hn, if_neg hne]
  by_cases hdl : d = l
  · rw [if_pos hdl, if_pos hdl]
    have hmem : r ∈ loopIdxs (min y h) (min (y + ht) h) 1 :=
      (mem_loopIdxs (by norm_num)).mpr ⟨hr1, hr2, by omega⟩
    rw [fillRows_apply_in _ _ _ _ _ _ _ r hnle hmem (by omega) (by omega)]
    simp only [scanSolid]
    rw [if_pos (by omega)]
  · rw [if_neg hdl, if_neg hdl]
    by_cases ht' : thick
    · rw [if_pos ht', if_pos ht']
      rw [fillThick_point _ _ _ _ _ _ _ _ _ _ hnle hr1 hr2 hc1 (by omega)]
      by_cases hre : r / 2 % 2 = 0
      · rw [if_pos hre]
        simp only [scanEvenThick]
        rw [if_pos (⟨hc1, hc2⟩ : min x w ≤ cx ∧ cx < min (x + wd) w)]
        by_cases hce : cx / 2 % 2 = 0
        · rw [if_pos hce, if_pos (by omega)]
        · rw [if_neg hce, if_neg (by omega)]
      · rw [if_neg hre]
        simp only [scanOddThick]
        rw [if_pos (⟨hc1, hc2⟩ : min x w ≤ cx ∧ cx < min (x + wd) w)]
        by_cases hce : cx / 2 % 2 = 0
        · rw [if_pos hce, if_neg (by omega)]
        · rw [if_neg hce, if_pos (by omega)]
    · rw [if_neg ht', if_neg ht']
      rw [fillNormal_point _ _ _ _ _ _ _ _ _ _ hnle hr1 hr2 hc1 (by omega)]
      by_cases hre : r % 2 = 0
      · rw [if_pos hre]
        simp only [scanEvenNorm]
        rw [if_pos (⟨hc1, hc2⟩ : min x w ≤ cx ∧ cx < min (x + wd) w)]
        by_cases hce : cx % 2 = 0
        · rw [if_pos hce, if_pos (by omega)]
        · rw [if_neg hce, if_neg (by omega)]
      · rw [if_neg hre]
        simp only [scanOddNorm]
        rw [if_pos (⟨hc1, hc2⟩ : min x w ≤ cx ∧ cx < min (x + wd) w)]
        by_cases hce : cx % 2 = 0
        · rw [if_pos hce, if_neg (by omega)]
        · rw [if_neg hce, if_pos (by omega)]

/-- A flat index that is not of the form row·stride+column with row below
the clamped `y_end` and column inside the clamped x-range is left unchanged
by `rgui_fill_rect`, whenever the unsigned sum `x + width` does not wrap —
no restriction on `y + height` or on the (possibly wrapped) dither loop
starts is needed, since every written row is below `y_end ≤ fb_height`. -/
theorem rgui_fill_rect_out (seInit soInit : Nat → Nat) (data : Buffer)
    (w h x y wd ht d l : Nat) (thick : Bool)
    (hxw : x + wd < U32) (idx : Nat)
    (hout : ∀ r c : Nat, r < min ((y + ht) % U32) h →
      min x w ≤ c → c < min (x + wd) w → idx ≠ r * w + c) :
    rgui_fill_rect seInit soInit data w h x y wd ht d l thick idx = data idx := by
  rw [U32_eq] at hxw
  simp only [U32_eq] at hout
  have hmodx : (x + wd) % 4294967296 = x + wd := by omega
  have hn : (min (x + wd) w + 4294967296 - min x w) % 4294967296 =
      min (x + wd) w - min x w := by omega
  have hout' : ∀ r c : Nat, r < min ((y + ht) % 4294967296) h →
      min x w ≤ c → c < min x w + (min (x + wd) w - min x w) → idx ≠ r * w + c := by
    intro r c a2 a3 a4
    exact hout r c a2 a3 (by omega)
  simp only [rgui_fill_rect, U32_eq, hmodx, hn]
  by_cases hz : min (x + wd) w - min x w = 0
  · rw [if_pos hz]
  · rw [if_neg hz]
    by_cases hdl : d = l
    · rw [if_pos hdl]
      exact fillRows_apply_out _ _ _ _ _ _ _ 0 _
        (fun r hr => ⟨Nat.zero_le r, (loopIdxs_bounds (by norm_num) hr).2⟩)
        (fun r c _ a2 a3 a4 => hout' r c a2 a3 a4)
    · rw [if_neg hdl]
      by_cases ht' : thick
      · rw [if_pos ht']
        exact fillThick_out _ _ _ _ _ _ _ _ _ hout'
      · rw [if_neg ht']
        exact fillNormal_out _ _ _ _ _ _ _ _ _ hout'

/-- When additionally the dither row-loop starts `y_start + k` cannot wrap
(`min y fb_height + 3 < 2^32`, or the solid branch is taken), every written
row also lies at or above the clamped `y_start`; this is the form the
zero-size no-op and the approved containment claims rely on. -/
theorem rgui_fill_rect_out_strong (seInit soInit : Nat → Nat) (data : Buffer)
    (w h x y wd ht d l : Nat) (thick : Bool)
    (hxw : x + wd < U32) (hok : d = l ∨ min y h + 3 < U32) (idx : Nat)
    (hout : ∀ r c : Nat, min y h ≤ r → r < min ((y + ht) % U32) h →
      min x w ≤ c → c < min (x + wd) w → idx ≠ r * w + c) :
    rgui_fill_rect seInit soInit data w h x y wd ht d l thick idx = data idx := by
  rw [U32_eq] at hxw
  simp only [U32_eq] at hout
  have hmodx : (x + wd) % 4294967296 = x + wd := by omega
  have hn : (min (x + wd) w + 4294967296 - min x w) % 4294967296 =
      min (x + wd) w - min x w := by omega
  have hout' : ∀ r c : Nat, min y h ≤ r → r < min ((y + ht) % 4294967296) h →
      min x w ≤ c → c < min x w + (min (x + wd) w - min x w) → idx ≠ r * w + c := by
    intro r c a1 a2 a3 a4
    exact hout r c a1 a2 a3 (by omega)
  simp only [rgui_fill_rect, U32_eq, hmodx, hn]
  by_cases hz : min (x + wd) w - min x w = 0
  · rw [if_pos hz]
  · rw [if_neg hz]
    by_cases hdl : d = l
    · rw [if_pos hdl]
      exact fillRows_apply_out _ _ _ _ _ _ _ _ _
        (fun r hr => loopIdxs_bounds (by norm_num) hr) hout'
    · rw [if_neg hdl]
      have hys3 : min y h + 3 < U32 := hok.resolve_left hdl
      by_cases ht' : thick
      · rw [if_pos ht']
        exact fillThick_out_strong _ _ _ _ _ _ _ _ _ hys3 hout'
      · rw [if_neg ht']
        exact fillNormal_out_strong _ _ _ _ _ _ _ _ _ (by omega) hout'

/-- Pointwise behaviour of `rgui_color_rect` (no wraparound hypotheses are
needed: the loop counts are truncated subtractions). -/
theorem rgui_color_rect_out (data : Buffer) (w h x y wd ht color idx : Nat)
    (hout : ∀ r c : Nat, min y h ≤ r → r < min ((y + ht) % U32) h →
      min x w ≤ c → c < min ((x + wd) % U32) w → idx ≠ r * w + c) :
    rgui_color_rect data w h x y wd ht color idx = data idx := by
  simp only [rgui_color_rect]
  exact fillRows_apply_out _ _ _ _ _ _ _ _ _
    (fun r hr => loopIdxs_bounds (by norm_num) hr)
    (fun r c a1 a2 a3 a4 => hout r c a1 a2 a3 (by omega))

/-- A flat index below the row stride decomposes uniquely into row/column. -/
theorem flat_unique {w r r' c c' : Nat} (hc : c < w) (hc' : c' < w)
    (he : r * w + c = r' * w + c') : r = r' ∧ c = c' := by
  rcases Nat.lt_trichotomy r r' with hlt | heq | hgt
  · have hm : (r + 1) * w ≤ r' * w := Nat.mul_le_mul_right _ hlt
    have h3 : (r + 1) * w = r * w + w := by ring
    omega
  · subst heq
    omega
  · have hm : (r' + 1) * w ≤ r * w := Nat.mul_le_mul_right _ hgt
    have h3 : (r' + 1) * w = r' * w + w := by ring
    omega

/-- C1 (amended): for `rgui_fill_rect`, provided the unsigned sum
`x + width` does not wrap modulo 2^32, every texel written lies at a row
index < `fb_height` and a column index < `fb_width` (any flat index that
changes decomposes as an in-bounds row/column pair); no restriction on
`y + height` is needed, since its wraparound only empties or shortens the
clamped row range.  Provided additionally `fb_height ≤ 2^32 - 4` (so the
dither branches' unsigned row indices `y_start + 1 ... y_start + 3` cannot
wrap), a call whose clamped rectangle has zero width or zero height leaves
the buffer entirely unchanged.  For `rgui_color_rect` both guarantees hold
for all unsigned inputs.  The unamended claim fails twice for
`rgui_fill_rect` — see the counterexample: a wrapped `x + width` produces an
out-of-bounds write, and at `fb_height = y = 2^32 - 1` a zero-height dither
call still writes a row (the wrapped `y_start + 1`). -/
theorem claim_C1_clamped_bounds :
    (∀ (seInit soInit : Nat → Nat) (data : Buffer)
        (w h x y wd ht d l : Nat) (thick : Bool),
      x + wd < U32 →
      ∀ idx, rgui_fill_rect seInit soInit data w h x y wd ht d l thick idx ≠ data idx →
        ∃ r c : Nat, r < h ∧ c < w ∧ idx = r * w + c) ∧
    (∀ (data : Buffer) (w h x y wd ht color : Nat),
      ∀ idx, rgui_color_rect data w h x y wd ht color idx ≠ data idx →
        ∃ r c : Nat, r < h ∧ c < w ∧ idx = r * w + c) ∧
    (∀ (seInit soInit : Nat → Nat) (data : Buffer)
        (w h x y wd ht d l : Nat) (thick : Bool),
      x + wd < U32 → h + 3 < U32 →
      (min (x + wd) w ≤ min x w ∨ min ((y + ht) % U32) h ≤ min y h) →
      ∀ idx, rgui_fill_rect seInit soInit data w h x y wd ht d l thick idx = data idx) ∧
    (∀ (data : Buffer) (w h x y wd ht color : Nat),
      (min ((x + wd) % U32) w ≤ min x w ∨ min ((y + ht) % U32) h ≤ min y h) →
      ∀ idx, rgui_color_rect data w h x y wd ht color idx = data idx) := by
  refine ⟨?_, ?_, ?_, ?_⟩
  · intro seInit soInit data w h x y wd ht d l thick hxw idx hne
    by_contra hno
    push_neg at hno
    refine hne (rgui_fill_rect_out _ _ _ _ _ _ _ _ _ _ _ _ hxw _ ?_)
    intro r c a2 a3 a4
    exact hno r c (by omega) (by omega)
  · intro data w h x y wd ht color idx hne
    by_contra hno
    push_neg at hno
    refine hne (rgui_color_rect_out _ _ _ _ _ _ _ _ _ ?_)
    intro r c a1 a2 a3 a4
    exact hno r c (by omega) (by omega)
  · intro seInit soInit data w h x y wd ht d l thick hxw hh3 hz idx
    refine rgui_fill_rect_out_strong _ _ _ _ _ _ _ _ _ _ _ _ hxw
      (Or.inr (by omega)) _ ?_
    intro r c a1 a2 a3 a4
    exact absurd hz (by omega)
  · intro data w h x y wd ht color hz idx
    refine rgui_color_rect_out _ _ _ _ _ _ _ _ _ ?_
    intro r c a1 a2 a3 a4
    exact absurd hz (by omega)

theorem claim_C1_witness :
    ((2 : Nat) + 3 < U32 ∧ (8 : Nat) + 3 < U32 ∧
      min (2 + 0) 8 ≤ min 2 8) ∧
    (∀ idx, rgui_fill_rect (fun _ => 9) (fun _ => 9) (fun _ => 0)
        8 8 2 1 3 2 5 6 false idx ≠ 0 →
      ∃ r c : Nat, r < 8 ∧ c < 8 ∧ idx = r * 8 + c) ∧
    rgui_fill_rect (fun _ => 9) (fun _ => 9) (fun _ => 0)
      8 8 2 3 0 5 5 6 true 7 = 0 :=
  ⟨⟨by decide, by decide, by decide⟩,
    claim_C1_clamped_bounds.1 (fun _ => 9) (fun _ => 9) (fun _ => 0)
      8 8 2 1 3 2 5 6 false (by decide),
    claim_C1_clamped_bounds.2.2.1 (fun _ => 9) (fun _ => 9) (fun _ => 0)
      8 8 2 3 0 5 5 6 true (by decide) (by decide) (Or.inl (by decide)) 7⟩

/-- C1 counterexample, refuting both guarantees of the claim as stated
(quantified over every unsigned input).  First: with the unsigned sum
`x + width` wrapping modulo 2^32 (`x = 2`, `width = 2^32 - 1` on a 4×4
buffer), the unsigned subtraction `x_end - x_start` in `rgui_fill_rect`
wraps to a huge `memcpy` size and the texel at flat index 16 — outside the
16-texel buffer — is overwritten.  Second: on a 4×(2^32-1) buffer with
`y = 2^32 - 1`, `height = 2` and distinct colours, the clamped rectangle
has zero height (`y_end = 1 ≤ y_start = 2^32 - 1`), yet the normal dither
branch's second loop starts at the wrapped unsigned index
`y_start + 1 = 0 < y_end` and overwrites texel (0, 0): the zero-size call
is not a no-op. -/
theorem claim_C1_counterexample :
    (rgui_fill_rect (fun _ => 1) (fun _ => 1) (fun _ => 0)
        4 4 2 0 4294967295 1 7 7 false 16 ≠ 0 ∧ ¬(16 < 4 * 4)) ∧
    (min ((4294967295 + 2) % U32) 4294967295 ≤ min 4294967295 4294967295 ∧
      rgui_fill_rect (fun _ => 1) (fun _ => 1) (fun _ => 0)
        4 4294967295 0 4294967295 2 2 7 9 false 0 ≠ 0) := by
  refine ⟨⟨by decide, by decide⟩, by decide, by decide⟩

/-- C2: for a rectangle fully inside the buffer and equal colours,
`rgui_fill_rect` sets every texel of the rectangle to that colour and leaves
every other texel of the buffer unchanged. -/
theorem claim_C2_solid_fill (seInit soInit : Nat → Nat) (data : Buffer)
    (w h x y wd ht c : Nat) (thick : Bool)
    (hw : w < U32) (hh : h < U32) (hx : x + wd ≤ w) (hy : y + ht ≤ h) :
    (∀ r cx : Nat, y ≤ r → r < y + ht → x ≤ cx → cx < x + wd →
      rgui_fill_rect seInit soInit data w h x y wd ht c c thick (r * w + cx) = c) ∧
    (∀ r cx : Nat, r < h → cx < w → ¬(y ≤ r ∧ r < y + ht ∧ x ≤ cx ∧ cx < x + wd) →
      rgui_fill_rect seInit soInit data w h x y wd ht c c thick (r * w + cx) =
        data (r * w + cx)) := by
  rw [U32_eq] at hw hh
  have hxw : x + wd < U32 := by rw [U32_eq]; omega
  have hyh : y + ht < U32 := by rw [U32_eq]; omega
  constructor
  · intro r cx a1 a2 a3 a4
    rw [rgui_fill_rect_point _ _ _ _ _ _ _ _ _ _ _ _ hxw hyh r cx
      (by omega) (by omega) (by omega) (by omega)]
    rw [if_pos rfl]
  · intro r cx a1 a2 hnot
    have hcol : (y + ht) % U32 = y + ht := by rw [U32_eq]; omega
    refine rgui_fill_rect_out_strong _ _ _ _ _ _ _ _ _ _ _ _ hxw (Or.inl rfl) _ ?_
    intro r' c' b1 b2 b3 b4 he
    rw [hcol] at b2
    have hu : r = r' ∧ cx = c' := flat_unique a2 (by omega) he
    exact hnot (by omega)

theorem claim_C2_witness :
    ((8 : Nat) < U32 ∧ (2 : Nat) + 3 ≤ 8 ∧ (1 : Nat) + 4 ≤ 8) ∧
    rgui_fill_rect (fun _ => 9) (fun _ => 9) (fun _ => 0)
      8 8 2 1 3 4 5 5 false (2 * 8 + 3) = 5 :=
  ⟨⟨by decide, by decide, by decide⟩,
    (claim_C2_solid_fill (fun _ => 9) (fun _ => 9) (fun _ => 0)
      8 8 2 1 3 4 5 false (by decide) (by decide) (by decide) (by decide)).1
      2 3 (by decide) (by decide) (by decide) (by decide)⟩

/-- C3: for a rectangle fully inside the buffer with distinct colours, the
texel written at buffer position (column `cx`, row `r`) is `dark_color`
exactly when `cx + r` is even (normal mode), respectively exactly when
`cx / 2 + r / 2` is even (thick mode, 2×2 blocks aligned to even absolute
coordinates), independent of where the rectangle starts. -/
theorem claim_C3_checkerboard (seInit soInit : Nat → Nat) (data : Buffer)
    (w h x y wd ht d l : Nat)
    (hw : w < U32) (hh : h < U32) (hx : x + wd ≤ w) (hy : y + ht ≤ h)
    (hdl : d ≠ l) :
    (∀ r cx : Nat, y ≤ r → r < y + ht → x ≤ cx → cx < x + wd →
      rgui_fill_rect seInit soInit data w h x y wd ht d l true (r * w + cx) =
        (if (cx / 2 + r / 2) % 2 = 0 then d else l)) ∧
    (∀ r cx : Nat, y ≤ r → r < y + ht → x ≤ cx → cx < x + wd →
      rgui_fill_rect seInit soInit data w h x y wd ht d l false (r * w + cx) =
        (if (cx + r) % 2 = 0 then d else l)) := by
  rw [U32_eq] at hw hh
  have hxw : x + wd < U32 := by rw [U32_eq]; omega
  have hyh : y + ht < U32 := by rw [U32_eq]; omega
  constructor
  · intro r cx a1 a2 a3 a4
    rw [rgui_fill_rect_point _ _ _ _ _ _ _ _ _ _ _ _ hxw hyh r cx
      (by omega) (by omega) (by omega) (by omega)]
    rw [if_neg hdl, if_pos rfl, Nat.add_comm (r / 2) (cx / 2)]
  · intro r cx a1 a2 a3 a4
    rw [rgui_fill_rect_point _ _ _ _ _ _ _ _ _ _ _ _ hxw hyh r cx
      (by omega) (by omega) (by omega) (by omega)]
    rw [if_neg hdl, if_neg Bool.false_ne_true, Nat.add_comm r cx]

theorem claim_C3_witness :
    ((8 : Nat) < U32 ∧ (0 : Nat) + 4 ≤ 8 ∧ (3 : Nat) ≠ 5) ∧
    rgui_fill_rect (fun _ => 9) (fun _ => 9) (fun _ => 0)
      8 8 0 0 4 4 3 5 true (2 * 8 + 3) =
        (if (3 / 2 + 2 / 2) % 2 = 0 then 3 else 5) :=
  ⟨⟨by decide, by decide, by decide⟩,
    (claim_C3_checkerboard (fun _ => 9) (fun _ => 9) (fun _ => 0)
      8 8 0 0 4 4 3 5 (by decide) (by decide) (by decide) (by decide)
      (by decide)).1 2 3 (by decide) (by decide) (by decide) (by decide)⟩

theorem particle_clip_eq (w h : Nat) (x y : Int) (wd ht : Nat) :
    (particle_clip w h x y wd ht).xs = min (max x 0) w ∧
    (particle_clip w h x y wd ht).ys = min (max y 0) h ∧
    (particle_clip w h x y wd ht).xe = min (max (x + wd) 0) w ∧
    (particle_clip w h x y wd ht).ye = min (max (y + ht) 0) h := by
  simp only [particle_clip]
  refine ⟨?_, ?_, ?_, ?_⟩ <;> split_ifs <;> omega

/-- C4: `rgui_draw_particle` writes `color` to exactly the texels of the
intersection of the requested rectangle `[x, x+width) × [y, y+height)` with
the buffer `[0, fb_width) × [0, fb_height)`, leaves every other flat index
unchanged, and returns `true` iff that intersection is non-empty.  The
input restrictions mirror C `int` representability (the claim's proviso that
`x + width` and `y + height` do not overflow `int`). -/
theorem claim_C4_draw_particle (data : Buffer) (w h : Nat) (x y : Int)
    (wd ht color : Nat)
    (hx1 : -(2 ^ 31) ≤ x) (hx2 : x + wd < 2 ^ 31)
    (hy1 : -(2 ^ 31) ≤ y) (hy2 : y + ht < 2 ^ 31)
    (hw : w < 2 ^ 31) (hh : h < 2 ^ 31) :
    (∀ r c : Nat, r < h → c < w → x ≤ (c : Int) → (c : Int) < x + wd →
        y ≤ (r : Int) → (r : Int) < y + ht →
      (rgui_draw_particle data w h x y wd ht color).1 (r * w + c) = color) ∧
    (∀ idx : Nat,
      (¬ ∃ r c : Nat, r < h ∧ c < w ∧ x ≤ (c : Int) ∧ (c : Int) < x + wd ∧
          y ≤ (r : Int) ∧ (r : Int) < y + ht ∧ idx = r * w + c) →
      (rgui_draw_particle data w h x y wd ht color).1 idx = data idx) ∧
    ((rgui_draw_particle data w h x y wd ht color).2 = true ↔
      ∃ r c : Nat, r < h ∧ c < w ∧ x ≤ (c : Int) ∧ (c : Int) < x + wd ∧
        y ≤ (r : Int) ∧ (r : Int) < y + ht) := by
  obtain ⟨hxs, hys, hxe, hye⟩ := particle_clip_eq w h x y wd ht
  refine ⟨?_, ?_, ?_⟩
  · intro r c a1 a2 a3 a4 a5 a6
    show fillRows data _ _ _ _ _ _ = color
    rw [hxs, hys, hxe, hye]
    have hmem : r ∈ loopIdxs (min (max y 0) (h : Int)).toNat
        (min (max (y + ht) 0) (h : Int)).toNat 1 :=
      (mem_loopIdxs (by norm_num)).mpr ⟨by omega, by omega, by omega⟩
    rw [fillRows_apply_in _ _ _ _ _ _ _ r (by omega) hmem (by omega) (by omega)]
  · intro idx hno
    push_neg at hno
    show fillRows data _ _ _ _ _ _ = data idx
    rw [hxs, hys, hxe, hye]
    refine fillRows_apply_out _ _ _ _ _ _ _
      (min (max y 0) (h : Int)).toNat (min (max (y + ht) 0) (h : Int)).toNat
      (fun r hr => loopIdxs_bounds (by norm_num) hr) ?_
    intro r c b1 b2 b3 b4
    exact hno r c (by omega) (by omega) (by omega) (by omega) (by omega) (by omega)
  · show (particle_on_screen w h x y wd ht = true) ↔ _
    simp only [particle_on_screen, Bool.and_eq_true, decide_eq_true_eq]
    rw [hxs, hys, hxe, hye]
    constructor
    · rintro ⟨h1, h2⟩
      exact ⟨(min (max y 0) (h : Int)).toNat, (min (max x 0) (w : Int)).toNat,
        by omega, by omega, by omega, by omega, by omega, by omega⟩
    · rintro ⟨r, c, b1, b2, b3, b4, b5, b6⟩
      constructor <;> omega

theorem claim_C4_witness :
    (-(2 ^ 31) ≤ (-2 : Int) ∧ (-2 : Int) + 5 < 2 ^ 31 ∧
      -(2 ^ 31) ≤ (1 : Int) ∧ (1 : Int) + 2 < 2 ^ 31 ∧
      (6 : Nat) < 2 ^ 31 ∧ (4 : Nat) < 2 ^ 31) ∧
    (rgui_draw_particle (fun _ => 0) 6 4 (-2) 1 5 2 9).1 (1 * 6 + 2) = 9 ∧
    ((rgui_draw_particle (fun _ => 0) 6 4 (-2) 1 5 2 9).2 = true ↔
      ∃ r c : Nat, r < 4 ∧ c < 6 ∧ (-2 : Int) ≤ (c : Int) ∧
        (c : Int) < -2 + (5 : Nat) ∧ (1 : Int) ≤ (r : Int) ∧
        (r : Int) < 1 + (2 : Nat)) :=
  ⟨⟨by decide, by decide, by decide, by decide, by decide, by decide⟩,
    (claim_C4_draw_particle (fun _ => 0) 6 4 (-2) 1 5 2 9 (by decide) (by decide)
      (by decide) (by decide) (by decide) (by decide)).1 1 2 (by decide) (by decide)
      (by decide) (by decide) (by decide) (by decide),
    (claim_C4_draw_particle (fun _ => 0) 6 4 (-2) 1 5 2 9 (by decide) (by decide)
      (by decide) (by decide) (by decide) (by decide)).2.2⟩

/-! ### Exact-rational model of float truncation -/

/-- C cast-to-integer of a float value: truncation toward zero. -/
def ratTrunc (q : Rat) : Int :=
  if q.num < 0 then -((q.num.natAbs / q.den : Nat) : Int)
  else ((q.num.natAbs / q.den : Nat) : Int)

/-- C `(unsigned)` cast of a nonnegative float expression. -/
def ratTruncNat (q : Rat) : Nat := (ratTrunc q).toNat

theorem ratTrunc_eq_floor (q : Rat) (h : 0 ≤ q) : ratTrunc q = ⌊q⌋ := by
  have hn : 0 ≤ q.num := Rat.num_nonneg.mpr h
  rw [ratTrunc, if_neg (by omega), Rat.floor_def]
  have h1 : ((q.num.natAbs : Int)) = q.num := Int.natAbs_of_nonneg hn
  rw [← h1]
  exact_mod_cast rfl

theorem ratTrunc_neg_eq (q : Rat) (h : q < 0) : ratTrunc q = -⌊-q⌋ := by
  have hn : q.num < 0 := Rat.num_neg.mpr h
  rw [ratTrunc, if_pos hn, ← ratTrunc_eq_floor (-q) (by linarith)]
  rw [ratTrunc, if_neg (by rw [Rat.neg_num]; omega), Rat.neg_num, Rat.neg_den,
    Int.natAbs_neg]

/-- `fmod(x, m)`: `x - trunc(x / m) * m` (exact for IEEE `fmod`); the result
keeps the sign of the dividend. -/
def cfmod (x m : Rat) : Rat := x - (ratTrunc (x / m) : Rat) * m

theorem cfmod_bounds (x m : Rat) (hm : 0 < m) :
    -m < cfmod x m ∧ cfmod x m < m := by
  unfold cfmod
  rcases le_or_lt 0 (x / m) with hq | hq
  · rw [ratTrunc_eq_floor _ hq]
    have h1 : (⌊x / m⌋ : ℚ) ≤ x / m := Int.floor_le _
    have h2 : x / m < ⌊x / m⌋ + 1 := Int.lt_floor_add_one _
    have h3 : (⌊x / m⌋ : ℚ) * m ≤ x := (le_div_iff₀ hm).mp h1
    have h4 : x < ((⌊x / m⌋ : ℚ) + 1) * m := (div_lt_iff₀ hm).mp h2
    constructor <;> nlinarith
  · rw [ratTrunc_neg_eq _ hq]
    have h1 : (⌊-(x / m)⌋ : ℚ) ≤ -(x / m) := Int.floor_le _
    have h2 : -(x / m) < ⌊-(x / m)⌋ + 1 := Int.lt_floor_add_one _
    have h3 : x / m ≤ -(⌊-(x / m)⌋ : ℚ) := by linarith
    have h4 : -(⌊-(x / m)⌋ : ℚ) - 1 < x / m := by linarith
    have h5 : x ≤ -(⌊-(x / m)⌋ : ℚ) * m := (div_le_iff₀ hm).mp h3
    have h6 : (-(⌊-(x / m)⌋ : ℚ) - 1) * m < x := (lt_div_iff₀ hm).mp h4
    push_cast at h5 h6 ⊢
    constructor <;> nlinarith

/-! ### Pixel format conversion

The shift/mask channel extraction `(col >> k) & 0xff` is written
`col / 2^k % 256` (with `2^24 = 16777216`, `2^16 = 65536`, `2^8 = 256`),
and the packing of disjoint bit fields is written with `*` and `+`
(`x << 12` is `x * 4096`, `x << 10` is `x * 1024`, `x << 5` is `x * 32`).
The float expressions are modelled exactly over `Rat`. -/

/-- `argb32_to_abgr1555` (PS2): for non-opaque input, darken RGB by
`a_factor = a * (1.0 / 255.0)` with round-half-up, then truncate to 5 bits
and set the alpha bit. -/
def argb32_to_abgr1555 (col : Nat) : Nat :=
  let a := col / 16777216 % 256
  let r := col / 65536 % 256
  let g := col / 256 % 256
  let b := col % 256
  let a_factor : Rat := (a : Rat) * (1 / 255)
  let r1 := if a < 255 then ratTruncNat ((r : Rat) * a_factor + 1 / 2) % 256 else r
  let g1 := if a < 255 then ratTruncNat ((g : Rat) * a_factor + 1 / 2) % 256 else g
  let b1 := if a < 255 then ratTruncNat ((b : Rat) * a_factor + 1 / 2) % 256 else b
  32768 + b1 / 8 * 1024 + g1 / 8 * 32 + r1 / 8

/-- The `a_factor` of `argb32_to_rgb5a3`:
`(a4 * (1.0/15.0)) / (a3 * (1.0/7.0))` when the 3-bit alpha `a3 = a >> 5`
is positive ("Avoid divide by zero errors..."), and `1.0` otherwise. -/
def rgb5a3_a_factor (a : Nat) : Rat :=
  if 0 < a / 32 then
    ((a / 16 : Nat) : Rat) * (1 / 15) / (((a / 32 : Nat) : Rat) * (1 / 7))
  else 1

/-- `argb32_to_rgb5a3` (GEKKO): for non-opaque input, scale RGB by the
alpha-correction factor with round-half-up, clamp to 255
(`r = (r <= 0xff) ? r : 0xff`), then truncate to 4 bits and pack under the
3-bit alpha `a3`. -/
def argb32_to_rgb5a3 (col : Nat) : Nat :=
  let a := col / 16777216 % 256
  let r := col / 65536 % 256
  let g := col / 256 % 256
  let b := col % 256
  let a3 := a / 32
  let r1 := if a < 255 then
      min (ratTruncNat ((r : Rat) * rgb5a3_a_factor a + 1 / 2)) 255 else r
  let g1 := if a < 255 then
      min (ratTruncNat ((g : Rat) * rgb5a3_a_factor a + 1 / 2)) 255 else g
  let b1 := if a < 255 then
      min (ratTruncNat ((b : Rat) * rgb5a3_a_factor a + 1 / 2)) 255 else b
  a3 * 4096 + r1 / 16 * 256 + g1 / 16 * 16 + b1 / 16

/-- `argb32_to_abgr4444` (PSP). -/
def argb32_to_abgr4444 (col : Nat) : Nat :=
  let a := col / 16777216 % 256 / 16
  let r := col / 65536 % 256 / 16
  let g := col / 256 % 256 / 16
  let b := col % 256 / 16
  a * 4096 + b * 256 + g * 16 + r

/-- `argb32_to_bgra4444` (D3D10/11/12). -/
def argb32_to_bgra4444 (col : Nat) : Nat :=
  let a := col / 16777216 % 256 / 16
  let r := col / 65536 % 256 / 16
  let g := col / 256 % 256 / 16
  let b := col % 256 / 16
  b * 4096 + g * 256 + r * 16 + a

/-- `argb32_to_rgba4444` (all other platforms). -/
def argb32_to_rgba4444 (col : Nat) : Nat :=
  let a := col / 16777216 % 256 / 16
  let r := col / 65536 % 256 / 16
  let g := col / 256 % 256 / 16
  let b := col % 256 / 16
  r * 4096 + g * 256 + b * 16 + a

theorem ratTruncNat_add_half (n : Nat) : ratTruncNat ((n : Rat) + 1 / 2) = n := by
  unfold ratTruncNat
  rw [ratTrunc_eq_floor _ (by positivity)]
  have hf : ⌊(n : ℚ) + 1 / 2⌋ = (n : Int) := by
    rw [Int.floor_eq_iff]
    constructor <;> push_cast <;> norm_num
  rw [hf]
  exact Int.toNat_natCast n

/-- C5: `argb32_to_rgb5a3` is total and never divides by zero: on any input
with alpha component 0 the correction factor is 1, the R/G/B values reach
the 4-bit truncation unscaled, and the result is a well-defined 16-bit
value. -/
theorem claim_C5_rgb5a3_alpha_zero (col : Nat)
    (ha : col / 16777216 % 256 = 0) :
    rgb5a3_a_factor (col / 16777216 % 256) = 1 ∧
    argb32_to_rgb5a3 col =
      col / 65536 % 256 / 16 * 256 + col / 256 % 256 / 16 * 16 + col % 256 / 16 ∧
    argb32_to_rgb5a3 col < 65536 := by
  have hfac : rgb5a3_a_factor 0 = 1 := by
    have : ¬(0 < 0 / 32) := by omega
    rw [rgb5a3_a_factor, if_neg this]
  have hmain : argb32_to_rgb5a3 col =
      col / 65536 % 256 / 16 * 256 + col / 256 % 256 / 16 * 16 + col % 256 / 16 := by
    simp only [argb32_to_rgb5a3, ha, hfac, mul_one,
      if_pos (show (0 : Nat) < 255 by norm_num), ratTruncNat_add_half]
    omega
  exact ⟨ha ▸ hfac, hmain, by omega⟩

theorem claim_C5_witness :
    (8405024 / 16777216 % 256 = 0) ∧
    argb32_to_rgb5a3 8405024 =
      8405024 / 65536 % 256 / 16 * 256 + 8405024 / 256 % 256 / 16 * 16 +
        8405024 % 256 / 16 ∧
    argb32_to_rgb5a3 8405024 < 65536 :=
  ⟨by decide, (claim_C5_rgb5a3_alpha_zero 8405024 (by decide)).2.1,
    (claim_C5_rgb5a3_alpha_zero 8405024 (by decide)).2.2⟩

/-- C8: on fully opaque input (alpha = 255) no converter rescales RGB: each
output channel field is exactly the high-order bits of the corresponding
input channel (5 bits for `argb32_to_abgr1555`, with the alpha bit set;
4 bits for `argb32_to_rgb5a3`, whose 3-bit alpha field is 7, and for the
three 4444 converters, whose alpha field is 15); in particular
ARGB(255,255,0,0) maps under `argb32_to_rgba4444` to red 15, green 0,
blue 0, alpha 15. -/
theorem claim_C8_full_alpha_exact (r g b : Nat)
    (hr : r < 256) (hg : g < 256) (hb : b < 256) :
    argb32_to_abgr1555 (4278190080 + r * 65536 + g * 256 + b) =
      32768 + b / 8 * 1024 + g / 8 * 32 + r / 8 ∧
    argb32_to_rgb5a3 (4278190080 + r * 65536 + g * 256 + b) =
      7 * 4096 + r / 16 * 256 + g / 16 * 16 + b / 16 ∧
    argb32_to_abgr4444 (4278190080 + r * 65536 + g * 256 + b) =
      15 * 4096 + b / 16 * 256 + g / 16 * 16 + r / 16 ∧
    argb32_to_bgra4444 (4278190080 + r * 65536 + g * 256 + b) =
      b / 16 * 4096 + g / 16 * 256 + r / 16 * 16 + 15 ∧
    argb32_to_rgba4444 (4278190080 + r * 65536 + g * 256 + b) =
      r / 16 * 4096 + g / 16 * 256 + b / 16 * 16 + 15 ∧
    argb32_to_rgba4444 4294901760 = 61455 := by
  have e1 : (4278190080 + r * 65536 + g * 256 + b) / 16777216 % 256 = 255 := by
    omega
  have e2 : (4278190080 + r * 65536 + g * 256 + b) / 65536 % 256 = r := by omega
  have e3 : (4278190080 + r * 65536 + g * 256 + b) / 256 % 256 = g := by omega
  have e4 : (4278190080 + r * 65536 + g * 256 + b) % 256 = b := by omega
  have hlt : ¬((255 : Nat) < 255) := by norm_num
  refine ⟨?_, ?_, ?_, ?_, ?_, by decide⟩
  · simp only [argb32_to_abgr1555, e1, e2, e3, e4, if_neg hlt]
  · simp only [argb32_to_rgb5a3, e1, e2, e3, e4, if_neg hlt]
  · simp only [argb32_to_abgr4444, e1, e2, e3, e4]
  · simp only [argb32_to_bgra4444, e1, e2, e3, e4]
  · simp only [argb32_to_rgba4444, e1, e2, e3, e4]

theorem claim_C8_witness :
    ((255 : Nat) < 256 ∧ (0 : Nat) < 256) ∧
    argb32_to_rgba4444 (4278190080 + 255 * 65536 + 0 * 256 + 0) =
      255 / 16 * 4096 + 0 / 16 * 256 + 0 / 16 * 16 + 15 :=
  ⟨⟨by decide, by decide⟩,
    (claim_C8_full_alpha_exact 255 0 0 (by decide) (by decide)
      (by decide)).2.2.2.2.1⟩

/-- C10: the three 4-bit-alpha converters depend only on the high 4 bits of
each 8-bit input channel: two inputs agreeing on bits 7–4 of A, R, G and B
produce identical outputs. -/
theorem claim_C10_nibble_independence (col1 col2 : Nat)
    (ha : col1 / 16777216 % 256 / 16 = col2 / 16777216 % 256 / 16)
    (hr : col1 / 65536 % 256 / 16 = col2 / 65536 % 256 / 16)
    (hg : col1 / 256 % 256 / 16 = col2 / 256 % 256 / 16)
    (hb : col1 % 256 / 16 = col2 % 256 / 16) :
    argb32_to_abgr4444 col1 = argb32_to_abgr4444 col2 ∧
    argb32_to_bgra4444 col1 = argb32_to_bgra4444 col2 ∧
    argb32_to_rgba4444 col1 = argb32_to_rgba4444 col2 := by
  refine ⟨?_, ?_, ?_⟩ <;>
    simp only [argb32_to_abgr4444, argb32_to_bgra4444, argb32_to_rgba4444,
      ha, hr, hg, hb]

theorem claim_C10_witness :
    (305419896 / 16777216 % 256 / 16 = 524246911 / 16777216 % 256 / 16 ∧
      305419896 / 65536 % 256 / 16 = 524246911 / 65536 % 256 / 16 ∧
      305419896 / 256 % 256 / 16 = 524246911 / 256 % 256 / 16 ∧
      305419896 % 256 / 16 = 524246911 % 256 / 16) ∧
    argb32_to_rgba4444 305419896 = argb32_to_rgba4444 524246911 :=
  ⟨⟨by decide, by decide, by decide, by decide⟩,
    (claim_C10_nibble_independence 305419896 524246911 (by decide) (by decide)
      (by decide) (by decide)).2.2⟩

/-! ### Particle simulator

`rgui_particle_t` holds four floats `a b c d` whose meaning is
per-effect; the pool `rgui->particles` has `RGUI_NUM_PARTICLES = 256`
slots.  `rand()` is an oracle of successive return values. -/

/-- `rgui_particle_t`: four generic float-valued fields. -/
structure Particle where
  a : Rat
  b : Rat
  c : Rat
  d : Rat

/-- The particle pool `rgui->particles`. -/
def Pool : Type := Nat → Particle

/-- Snow-alt flake size from the pool index:
`if (!(i & 0x2)) size = 2; else if ((i & 0x7) == 0x7) size = 3;` else 1;
plain snow always uses size 1. -/
def snow_particle_size (alt : Bool) (i : Nat) : Nat :=
  if alt then (if i / 2 % 2 = 0 then 2 else if i % 8 = 7 then 3 else 1) else 1

/-- Horizontal snow velocity clamp to [-0.4, 0.1]. -/
def snow_clamp_c (v : Rat) : Rat :=
  let v1 := if v < -(2 / 5) then -(2 / 5) else v
  if v1 > 1 / 10 then 1 / 10 else v1

/-- Vertical snow velocity clamp to [-0.1, 0.4]. -/
def snow_clamp_d (v : Rat) : Rat :=
  let v1 := if v < -(1 / 10) then -(1 / 10) else v
  if v1 > 2 / 5 then 2 / 5 else v1

/-- The per-particle state change of one snow/snow-alt loop iteration:
random-walk the velocity by `(rand() % 16 - 9) * 0.01` resp.
`(rand() % 16 - 7) * 0.01` (`r0`, `r1` are the two `rand()` results), clamp,
advance the position through `fmod` against the buffer dimensions, and — when
the drawn particle was off screen — shift a negative coordinate up by the
corresponding dimension.  The shift `a1 + fb_width` is exact here, whereas
the source's float addition rounds to nearest: for a tiny negative
coordinate the float result lands exactly on `fb_width` (the exact sum is
within half an ulp of it), never beyond it, so position theorems claim only
the closed upper bound `≤ fb_width` (resp. `≤ fb_height`), which both the
model and the float code satisfy. -/
def snow_update_particle (alt : Bool) (i r0 r1 : Nat) (sf : Rat) (w h : Nat)
    (p : Particle) : Particle :=
  let c1 := snow_clamp_c (p.c + ((((r0 % 16 : Nat) : Int) - 9 : Int) : Rat) * (1 / 100))
  let d1 := snow_clamp_d (p.d + ((((r1 % 16 : Nat) : Int) - 7 : Int) : Rat) * (1 / 100))
  let a1 := cfmod (p.a + sf * c1) (w : Rat)
  let b1 := cfmod (p.b + sf * d1) (h : Rat)
  let s := snow_particle_size alt i
  let onscr := particle_on_screen w h (ratTrunc a1) (ratTrunc b1) s s
  let a2 := if onscr then a1 else (if a1 < 0 then a1 + (w : Rat) else a1)
  let b2 := if onscr then b1 else (if b1 < 0 then b1 + (h : Rat) else b1)
  ⟨a2, b2, c1, d1⟩

/-- One iteration `i` of the snow update/draw loop over the state
(pool, frame buffer): same computation as `snow_update_particle` (including
its exact modelling of the off-screen shift — see the note there), plus the
`rgui_draw_particle` call into the frame buffer. -/
def snow_iter (alt : Bool) (i r0 r1 : Nat) (sf : Rat) (w h color : Nat)
    (st : Pool × Buffer) : Pool × Buffer :=
  let p := st.1 i
  let c1 := snow_clamp_c (p.c + ((((r0 % 16 : Nat) : Int) - 9 : Int) : Rat) * (1 / 100))
  let d1 := snow_clamp_d (p.d + ((((r1 % 16 : Nat) : Int) - 7 : Int) : Rat) * (1 / 100))
  let a1 := cfmod (p.a + sf * c1) (w : Rat)
  let b1 := cfmod (p.b + sf * d1) (h : Rat)
  let s := snow_particle_size alt i
  let dr := rgui_draw_particle st.2 w h (ratTrunc a1) (ratTrunc b1) s s color
  let a2 := if dr.2 then a1 else (if a1 < 0 then a1 + (w : Rat) else a1)
  let b2 := if dr.2 then b1 else (if b1 < 0 then b1 + (h : Rat) else b1)
  (fun j => if j = i then ⟨a2, b2, c1, d1⟩ else st.1 j, dr.1)

/-- The first `n` iterations of the snow loop. -/
def snow_pass_n (alt : Bool) (oracle : Nat → Nat) (sf : Rat) (w h color : Nat)
    (n : Nat) (st : Pool × Buffer) : Pool × Buffer :=
  (List.range n).foldl
    (fun s i => snow_iter alt i (oracle (2 * i)) (oracle (2 * i + 1)) sf w h color s)
    st

/-- The snow/snow-alt case of one `rgui_render_particle_effect` call: all 256
particles updated and drawn in pool order; iteration `i` consumes the
`rand()` results `oracle (2*i)` and `oracle (2*i+1)`. -/
def snow_pass (alt : Bool) (oracle : Nat → Nat) (sf : Rat) (w h color : Nat)
    (st : Pool × Buffer) : Pool × Buffer :=
  snow_pass_n alt oracle sf w h color RGUI_NUM_PARTICLES st

/-- `N` successive snow frames; frame `t` draws its randomness from
`oracles t`. -/
def snow_frames (alt : Bool) (oracles : Nat → Nat → Nat) (sf : Rat)
    (w h color : Nat) : Nat → Pool × Buffer → Pool × Buffer
  | 0, st => st
  | n + 1, st => snow_pass alt (oracles n) sf w h color
      (snow_frames alt oracles sf w h color n st)

theorem snow_iter_fst (alt : Bool) (i r0 r1 : Nat) (sf : Rat) (w h color : Nat)
    (st : Pool × Buffer) (j : Nat) :
    (snow_iter alt i r0 r1 sf w h color st).1 j =
      if j = i then snow_update_particle alt i r0 r1 sf w h (st.1 i)
      else st.1 j := by
  simp only [snow_iter, snow_update_particle, rgui_draw_particle]

theorem snow_pass_n_pool (alt : Bool) (oracle : Nat → Nat) (sf : Rat)
    (w h color : Nat) :
    ∀ (n : Nat) (st : Pool × Buffer) (j : Nat),
      (snow_pass_n alt oracle sf w h color n st).1 j =
        if j < n then
          snow_update_particle alt j (oracle (2 * j)) (oracle (2 * j + 1)) sf w h
            (st.1 j)
        else st.1 j := by
  intro n
  induction n with
  | zero =>
    intro st j
    rw [snow_pass_n, if_neg (by omega)]
    rfl
  | succ m ih =>
    intro st j
    have hsplit : snow_pass_n alt oracle sf w h color (m + 1) st =
        snow_iter alt m (oracle (2 * m)) (oracle (2 * m + 1)) sf w h color
          (snow_pass_n alt oracle sf w h color m st) := by
      unfold snow_pass_n
      rw [List.range_succ, List.foldl_append]
      rfl
    rw [hsplit, snow_iter_fst]
    by_cases hj : j = m
    · subst hj
      rw [if_pos rfl, ih st j, if_neg (by omega), if_pos (by omega)]
    · rw [if_neg hj, ih st j]
      by_cases hjm : j < m
      · rw [if_pos hjm, if_pos (by omega)]
      · rw [if_neg hjm, if_neg (by omega)]

theorem snow_clamp_c_bounds (v : Rat) :
    -(2 / 5) ≤ snow_clamp_c v ∧ snow_clamp_c v ≤ 1 / 10 := by
  unfold snow_clamp_c
  by_cases h1 : v < -(2 / 5)
  · rw [if_pos h1, if_neg (by norm_num)]
    norm_num
  · rw [if_neg h1]
    push_neg at h1
    by_cases h2 : v > 1 / 10
    · rw [if_pos h2]
      norm_num
    · rw [if_neg h2]
      push_neg at h2
      exact ⟨h1, h2⟩

theorem snow_clamp_d_bounds (v : Rat) :
    -(1 / 10) ≤ snow_clamp_d v ∧ snow_clamp_d v ≤ 2 / 5 := by
  unfold snow_clamp_d
  by_cases h1 : v < -(1 / 10)
  · rw [if_pos h1, if_neg (by norm_num)]
    norm_num
  · rw [if_neg h1]
    push_neg at h1
    by_cases h2 : v > 2 / 5
    · rw [if_pos h2]
      norm_num
    · rw [if_neg h2]
      push_neg at h2
      exact ⟨h1, h2⟩

theorem wrap_bounds (x m : Rat) (os : Bool) (_hm : 0 < m)
    (h1 : -m < x) (h2 : x < m) :
    -m < (if os then x else (if x < 0 then x + m else x)) ∧
      (if os then x else (if x < 0 then x + m else x)) < m := by
  split_ifs with ha hb <;> constructor <;> linarith

theorem snow_update_particle_pos (alt : Bool) (i r0 r1 : Nat) (sf : Rat)
    (w h : Nat) (p : Particle) (hw : 0 < w) (hh : 0 < h) :
    -(w : Rat) < (snow_update_particle alt i r0 r1 sf w h p).a ∧
    (snow_update_particle alt i r0 r1 sf w h p).a < w ∧
    -(h : Rat) < (snow_update_particle alt i r0 r1 sf w h p).b ∧
    (snow_update_particle alt i r0 r1 sf w h p).b < h := by
  have hwq : (0 : Rat) < (w : Rat) := by exact_mod_cast hw
  have hhq : (0 : Rat) < (h : Rat) := by exact_mod_cast hh
  simp only [snow_update_particle]
  have ha := cfmod_bounds
    (p.a + sf * snow_clamp_c
      (p.c + ((((r0 % 16 : Nat) : Int) - 9 : Int) : Rat) * (1 / 100))) _ hwq
  have hb := cfmod_bounds
    (p.b + sf * snow_clamp_d
      (p.d + ((((r1 % 16 : Nat) : Int) - 7 : Int) : Rat) * (1 / 100))) _ hhq
  have hA := wrap_bounds _ _
    (particle_on_screen w h
      (ratTrunc (cfmod (p.a + sf * snow_clamp_c
        (p.c + ((((r0 % 16 : Nat) : Int) - 9 : Int) : Rat) * (1 / 100))) (w : Rat)))
      (ratTrunc (cfmod (p.b + sf * snow_clamp_d
        (p.d + ((((r1 % 16 : Nat) : Int) - 7 : Int) : Rat) * (1 / 100))) (h : Rat)))
      (snow_particle_size alt i) (snow_particle_size alt i))
    hwq ha.1 ha.2
  have hB := wrap_bounds _ _
    (particle_on_screen w h
      (ratTrunc (cfmod (p.a + sf * snow_clamp_c
        (p.c + ((((r0 % 16 : Nat) : Int) - 9 : Int) : Rat) * (1 / 100))) (w : Rat)))
      (ratTrunc (cfmod (p.b + sf * snow_clamp_d
        (p.d + ((((r1 % 16 : Nat) : Int) - 7 : Int) : Rat) * (1 / 100))) (h : Rat)))
      (snow_particle_size alt i) (snow_particle_size alt i))
    hhq hb.1 hb.2
  exact ⟨hA.1, hA.2, hB.1, hB.2⟩

/-- C7: over any number `N ≥ 1` of snow/snow-alt update steps, whatever the
random deltas and the speed factor, every particle's velocity components end
each step inside the clamped ranges `[-0.4, 0.1] × [-0.1, 0.4]`. -/
theorem claim_C7_velocity_clamped (alt : Bool) (oracles : Nat → Nat → Nat)
    (sf : Rat) (w h color : Nat) (pool : Pool) (buf : Buffer)
    (N : Nat) (hN : 0 < N) (i : Nat) (hi : i < RGUI_NUM_PARTICLES) :
    -(2 / 5) ≤ ((snow_frames alt oracles sf w h color N (pool, buf)).1 i).c ∧
    ((snow_frames alt oracles sf w h color N (pool, buf)).1 i).c ≤ 1 / 10 ∧
    -(1 / 10) ≤ ((snow_frames alt oracles sf w h color N (pool, buf)).1 i).d ∧
    ((snow_frames alt oracles sf w h color N (pool, buf)).1 i).d ≤ 2 / 5 := by
  obtain ⟨m, rfl⟩ : ∃ m, N = m + 1 := ⟨N - 1, by omega⟩
  rw [snow_frames, snow_pass, snow_pass_n_pool, if_pos hi]
  simp only [snow_update_particle]
  exact ⟨(snow_clamp_c_bounds _).1, (snow_clamp_c_bounds _).2,
    (snow_clamp_d_bounds _).1, (snow_clamp_d_bounds _).2⟩

theorem claim_C7_witness :
    ((0 : Nat) < 1 ∧ (0 : Nat) < RGUI_NUM_PARTICLES) ∧
    (-(2 / 5) ≤ ((snow_frames false (fun _ _ => 0) 1 10 10 0 1
        (fun _ => ⟨0, 0, 0, 0⟩, fun _ => 0)).1 0).c ∧
      ((snow_frames false (fun _ _ => 0) 1 10 10 0 1
        (fun _ => ⟨0, 0, 0, 0⟩, fun _ => 0)).1 0).c ≤ 1 / 10 ∧
      -(1 / 10) ≤ ((snow_frames false (fun _ _ => 0) 1 10 10 0 1
        (fun _ => ⟨0, 0, 0, 0⟩, fun _ => 0)).1 0).d ∧
      ((snow_frames false (fun _ _ => 0) 1 10 10 0 1
        (fun _ => ⟨0, 0, 0, 0⟩, fun _ => 0)).1 0).d ≤ 2 / 5) :=
  ⟨⟨by decide, by decide⟩,
    claim_C7_velocity_clamped false (fun _ _ => 0) 1 10 10 0
      (fun _ => ⟨0, 0, 0, 0⟩) (fun _ => 0) 1 (by decide) 0 (by decide)⟩

/-- C6 (amended): the snow/snow-alt position update wraps each coordinate
modulo the buffer dimension with the sign of the dividend (C `fmod`), so
after every update step each particle position lies in
`(-fb_width, fb_width] × (-fb_height, fb_height]`; contrary to the claim as
stated, it is not confined to `[0, fb_width) × [0, fb_height)` — a negative
coordinate survives whenever the drawn particle was still on screen (see
the counterexample).  The upper ends are closed because the float
off-screen correction `a + (float)fb_width` can round a tiny negative
coordinate to exactly `fb_width` (the exact-rational model stays strictly
below, so the closed bound holds for both). -/
theorem claim_C6_position_wrap (alt : Bool) (oracles : Nat → Nat → Nat)
    (sf : Rat) (w h color : Nat) (pool : Pool) (buf : Buffer) (N : Nat)
    (hw : 0 < w) (hh : 0 < h) (_hsf : 0 < sf) (hN : 0 < N) (i : Nat)
    (hi : i < RGUI_NUM_PARTICLES) :
    -(w : Rat) < ((snow_frames alt oracles sf w h color N (pool, buf)).1 i).a ∧
    ((snow_frames alt oracles sf w h color N (pool, buf)).1 i).a ≤ w ∧
    -(h : Rat) < ((snow_frames alt oracles sf w h color N (pool, buf)).1 i).b ∧
    ((snow_frames alt oracles sf w h color N (pool, buf)).1 i).b ≤ h := by
  obtain ⟨m, rfl⟩ : ∃ m, N = m + 1 := ⟨N - 1, by omega⟩
  rw [snow_frames, snow_pass, snow_pass_n_pool, if_pos hi]
  obtain ⟨p1, p2, p3, p4⟩ := snow_update_particle_pos alt i _ _ sf w h _ hw hh
  exact ⟨p1, p2.le, p3, p4.le⟩

theorem claim_C6_witness :
    ((0 : Nat) < 10 ∧ (0 : Rat) < 2 ∧ (0 : Nat) < 1 ∧ (0 : Nat) < RGUI_NUM_PARTICLES) ∧
    (-(10 : Rat) < ((snow_frames false (fun _ _ => 0) 2 10 10 0 1
        (fun _ => ⟨0, 0, 0, 0⟩, fun _ => 0)).1 0).a ∧
      ((snow_frames false (fun _ _ => 0) 2 10 10 0 1
        (fun _ => ⟨0, 0, 0, 0⟩, fun _ => 0)).1 0).a ≤ 10 ∧
      -(10 : Rat) < ((snow_frames false (fun _ _ => 0) 2 10 10 0 1
        (fun _ => ⟨0, 0, 0, 0⟩, fun _ => 0)).1 0).b ∧
      ((snow_frames false (fun _ _ => 0) 2 10 10 0 1
        (fun _ => ⟨0, 0, 0, 0⟩, fun _ => 0)).1 0).b ≤ 10) :=
  ⟨⟨by decide, by norm_num, by decide, by decide⟩,
    claim_C6_position_wrap false (fun _ _ => 0) 2 10 10 0
      (fun _ => ⟨0, 0, 0, 0⟩) (fun _ => 0) 1 (by decide) (by decide)
      (by norm_num) (by decide) 0 (by decide)⟩

/-- C6 counterexample: one snow update step on a 10×10 buffer with speed
factor 10, every particle starting at (0.5, 0.5) with zero velocity and the
random oracle returning 0, leaves particle 0 at `a = -2/5 < 0`: the
position after the step is NOT in `[0, fb_width)` (the C `fmod` keeps the
dividend's sign, and the on-screen particle is not corrected). -/
theorem claim_C6_counterexample :
    ((snow_pass false (fun _ => 0) 10 10 10 0
        (fun _ => ⟨1 / 2, 1 / 2, 0, 0⟩, fun _ => 0)).1 0).a < 0 := by
  show ((snow_pass_n false (fun _ => 0) 10 10 10 0 RGUI_NUM_PARTICLES
      (fun _ => ⟨1 / 2, 1 / 2, 0, 0⟩, fun _ => 0)).1 0).a < 0
  rw [snow_pass_n_pool, if_pos (show 0 < RGUI_NUM_PARTICLES by decide)]
  decide

/-! ### Rain effect -/

/-- The 60-entry drop-length weight table of the rain effect. -/
def rain_weights : List Nat :=
  [2, 2, 2, 2, 2, 2, 2, 2, 2, 2, 2, 2, 2,
   3, 3, 3, 3, 3, 3, 3, 3, 3, 3, 3, 3,
   4, 4, 4, 4, 4, 4, 4, 4, 4, 4, 4,
   5, 5, 5, 5, 5, 5, 5, 5,
   6, 6, 6, 6, 6, 6,
   7, 7, 7, 7,
   8, 8, 8,
   9, 9,
   10]

/-- The active rain drop count
`(unsigned)(0.85f * ((float)fb_width / (float)RGUI_MAX_FB_WIDTH) * (float)RGUI_NUM_PARTICLES)`
capped at `RGUI_NUM_PARTICLES`.  The float literal `0.85f` is modelled by
its exact binary32 value `14260634 / 2^24`, so the product is the exact
rational `14260634 * fb_width * 256 / (2^24 * 426)` = `14260634 * fb_width /
27918336`, truncated; the omitted intermediate binary32 roundings are below
one part in 10^7 and never move the value across an integer below the cap
(the exact value has denominator 1065). -/
def rain_num_drops (fb_width : Nat) : Nat :=
  let d := 14260634 * fb_width / 27918336
  if d < RGUI_NUM_PARTICLES then d else RGUI_NUM_PARTICLES

/-- One iteration of the rain update/draw loop over the state
(pool, frame buffer, `rand()` counter): draw the drop (width 2, height
`(unsigned)length`), advance `y` by `speed * global_speed_factor`, and
respawn off-screen drops from three fresh `rand()` results. -/
def rain_iter (oracle : Nat → Nat) (sf : Rat) (w h color : Nat)
    (st : Pool × Buffer × Nat) (i : Nat) : Pool × Buffer × Nat :=
  let p := st.1 i
  let dr := rgui_draw_particle st.2.1 w h (ratTrunc p.a) (ratTrunc p.b) 2
      (ratTruncNat p.c) color
  let p1 : Particle := ⟨p.a, p.b + p.d * sf, p.c, p.d⟩
  if dr.2 then
    (fun j => if j = i then p1 else st.1 j, dr.1, st.2.2)
  else
    let len : Nat := rain_weights.getD (oracle (st.2.2 + 1) % 60) 0
    let p2 : Particle :=
      ⟨((oracle st.2.2 % (w / 3) * 3 : Nat) : Rat), 0, (len : Rat),
        ((len : Rat) / 12) * (1 / 2 + ((oracle (st.2.2 + 2) % 150 : Nat) : Rat) / 200)⟩
    (fun j => if j = i then p2 else st.1 j, dr.1, st.2.2 + 3)

/-- The rain case of one `rgui_render_particle_effect` call: only pool
indices below `rain_num_drops fb_width` are visited. -/
def rain_pass (oracle : Nat → Nat) (sf : Rat) (w h color : Nat)
    (pool : Pool) (buf : Buffer) : Pool × Buffer × Nat :=
  (List.range (rain_num_drops w)).foldl (rain_iter oracle sf w h color)
    (pool, buf, 0)

theorem rain_iter_fst_ne (oracle : Nat → Nat) (sf : Rat) (w h color : Nat)
    (st : Pool × Buffer × Nat) (i j : Nat) (hne : j ≠ i) :
    (rain_iter oracle sf w h color st i).1 j = st.1 j := by
  simp only [rain_iter]
  split
  · exact if_neg hne
  · exact if_neg hne

theorem rain_foldl_untouched (oracle : Nat → Nat) (sf : Rat) (w h color : Nat)
    (l : List Nat) :
    ∀ (st : Pool × Buffer × Nat) (i : Nat), i ∉ l →
      (l.foldl (rain_iter oracle sf w h color) st).1 i = st.1 i := by
  induction l with
  | nil => intro st i _; rfl
  | cons a tl ih =>
    intro st i hi
    show (tl.foldl (rain_iter oracle sf w h color)
      (rain_iter oracle sf w h color st a)).1 i = st.1 i
    have hia : i ≠ a := fun he => hi (he ▸ List.mem_cons_self a tl)
    rw [ih _ i (fun hmem => hi (List.mem_cons_of_mem a hmem)),
      rain_iter_fst_ne _ _ _ _ _ _ _ _ hia]

theorem rain_iter_congr (oracle : Nat → Nat) (sf : Rat) (w h color : Nat)
    (st1 st2 : Pool × Buffer × Nat) (a : Nat)
    (h2 : st1.2 = st2.2) (hpa : st1.1 a = st2.1 a) :
    (rain_iter oracle sf w h color st1 a).2 =
      (rain_iter oracle sf w h color st2 a).2 ∧
    (rain_iter oracle sf w h color st1 a).1 a =
      (rain_iter oracle sf w h color st2 a).1 a := by
  obtain ⟨p1, rest1⟩ := st1
  obtain ⟨p2, rest2⟩ := st2
  simp only at h2 hpa
  subst h2
  simp only [rain_iter, hpa]
  split
  · exact ⟨rfl, by simp⟩
  · exact ⟨rfl, by simp⟩

theorem rain_foldl_agree (oracle : Nat → Nat) (sf : Rat) (w h color : Nat)
    (l : List Nat) :
    ∀ (st1 st2 : Pool × Buffer × Nat), st1.2 = st2.2 →
      (∀ i ∈ l, st1.1 i = st2.1 i) →
      (l.foldl (rain_iter oracle sf w h color) st1).2 =
        (l.foldl (rain_iter oracle sf w h color) st2).2 := by
  induction l with
  | nil => intro _ _ h2 _; exact h2
  | cons a tl ih =>
    intro st1 st2 h2 h1
    show (tl.foldl (rain_iter oracle sf w h color)
        (rain_iter oracle sf w h color st1 a)).2 = _
    apply ih
    · exact (rain_iter_congr oracle sf w h color st1 st2 a h2
        (h1 a (List.mem_cons_self a tl))).1
    · intro i hi
      by_cases hia : i = a
      · subst hia
        exact (rain_iter_congr oracle sf w h color st1 st2 i h2
          (h1 i (List.mem_cons_self i tl))).2
      · rw [rain_iter_fst_ne _ _ _ _ _ _ _ _ hia,
          rain_iter_fst_ne _ _ _ _ _ _ _ _ hia]
        exact h1 i (List.mem_cons_of_mem a hi)

set_option maxRecDepth 100000 in
theorem rain_drops_formula_small :
    ∀ w : Nat, w < 502 → 14260634 * w / 27918336 = 544 * w / 1065 := by
  decide

/-- C9: the rain drop count is `min(256, trunc(0.85 · (fb_width/426) · 256))`
(`= min 256 (544·fb_width/1065)` exactly) — linear in the buffer width
against the reference maximum width 426 and capped at the pool size —
giving 217 drops at width 426 and 108 at width 213; and the rain pass
neither updates particles at pool indices ≥ that count (their state is
returned unchanged) nor draws them (the resulting frame buffer and rand
stream are independent of the pool contents at indices ≥ the count). -/
theorem claim_C9_rain_drop_count :
    (∀ w : Nat, rain_num_drops w = min 256 (544 * w / 1065)) ∧
    rain_num_drops 426 = 217 ∧
    rain_num_drops 213 = 108 ∧
    (∀ (oracle : Nat → Nat) (sf : Rat) (w h color : Nat) (pool : Pool)
        (buf : Buffer) (i : Nat), rain_num_drops w ≤ i →
      (rain_pass oracle sf w h color pool buf).1 i = pool i) ∧
    (∀ (oracle : Nat → Nat) (sf : Rat) (w h color : Nat)
        (pool1 pool2 : Pool) (buf : Buffer),
      (∀ i, i < rain_num_drops w → pool1 i = pool2 i) →
      (rain_pass oracle sf w h color pool1 buf).2 =
        (rain_pass oracle sf w h color pool2 buf).2) := by
  refine ⟨?_, by decide, by decide, ?_, ?_⟩
  · intro w
    simp only [rain_num_drops, RGUI_NUM_PARTICLES]
    rcases Nat.lt_or_ge w 502 with hlt | hge
    · rw [rain_drops_formula_small w hlt, if_pos (by omega)]
      omega
    · rw [if_neg (by omega)]
      omega
  · intro oracle sf w h color pool buf i hi
    exact rain_foldl_untouched oracle sf w h color _ _ i
      (fun hmem => by have := List.mem_range.mp hmem; omega)
  · intro oracle sf w h color pool1 pool2 buf hagree
    exact rain_foldl_agree oracle sf w h color _ _ _ rfl
      (fun i hi => hagree i (List.mem_range.mp hi))

theorem claim_C9_witness :
    (rain_num_drops 4 ≤ 300) ∧
    (rain_pass (fun _ => 0) 1 4 4 0 (fun _ => ⟨0, 0, 0, 0⟩) (fun _ => 0)).1 300 =
      (⟨0, 0, 0, 0⟩ : Particle) :=
  ⟨by decide,
    claim_C9_rain_drop_count.2.2.2.1 (fun _ => 0) 1 4 4 0
      (fun _ => ⟨0, 0, 0, 0⟩) (fun _ => 0) 300 (by decide)⟩

end RGUI
